import Mathlib

/-!
Shallow embedding of `pngFS.py`, an in-memory FUSE filesystem persisted
into a PNG image by an external codec.  The embedding models:

* Python `dict` (insertion ordered, unique keys) as an association list
  with ordered update/delete/modify operations;
* the `File` objects (`File.__init__`), the inode table `FS`
  (`FS.add_file`, `FS.get_file`, `FS.get_inode`,
  `FS.clean_files_without_parent`, `FS.getattr`), and the FUSE operation
  handlers of class `pngFS` (`lookup`, `mkdir`, `create`, `read`,
  `write`, `rmdir`, `unlink`, `rename`);
* the debounce timer `SingleShotTimer` as a discrete-time trace function;
* the startup load/fallback logic of `pngFS.__init__`.

Stateful Python methods become functions `FS → args → result × FS`;
Python exceptions become an explicit `Err` type, distinguishing
`pyfuse3.FUSEError` codes from uncaught `KeyError`/`TypeError`.
-/

/-- Byte strings (`bytes` in Python) as lists of naturals. -/
abbrev Bytes := List Nat

section Dict

variable {α : Type _} {β : Type _} [DecidableEq α]

/-- `d[k]` lookup in a Python dict modelled as an ordered association list:
the first binding of `k` (the only one, since dict keys are unique). -/
def dictGet (d : List (α × β)) (k : α) : Option β :=
  match d with
  | [] => none
  | (a, b) :: rest => if a = k then some b else dictGet rest k

/-- `d[k] = v`: replace the binding in place if `k` is present (its
position is preserved, as for Python dicts), else append it at the end. -/
def dictSet (d : List (α × β)) (k : α) (v : β) : List (α × β) :=
  match d with
  | [] => [(k, v)]
  | (a, b) :: rest => if a = k then (a, v) :: rest else (a, b) :: dictSet rest k v

/-- `del d[k]`: remove the binding of `k` (a no-op when absent; the
callers below only delete present keys). -/
def dictDel (d : List (α × β)) (k : α) : List (α × β) :=
  match d with
  | [] => []
  | (a, b) :: rest => if a = k then rest else (a, b) :: dictDel rest k

/-- In-place mutation of the object stored at key `k` (a no-op when the
key is absent, matching a mutation of an object no longer in the dict). -/
def dictModify (d : List (α × β)) (k : α) (g : β → β) : List (α × β) :=
  match d with
  | [] => []
  | (a, b) :: rest => if a = k then (a, g b) :: rest else (a, b) :: dictModify rest k g

theorem dictGet_dictSet_self (d : List (α × β)) (k : α) (v : β) :
    dictGet (dictSet d k v) k = some v := by
  induction d with
  | nil => simp [dictSet, dictGet]
  | cons hd tl ih =>
    obtain ⟨a, b⟩ := hd
    by_cases h : a = k <;> simp [dictSet, dictGet, h, ih]

theorem dictGet_dictSet_ne (d : List (α × β)) (k k' : α) (v : β) (h : k' ≠ k) :
    dictGet (dictSet d k v) k' = dictGet d k' := by
  induction d with
  | nil =>
    have hk : ¬ k = k' := fun he => h he.symm
    simp [dictSet, dictGet, hk]
  | cons hd tl ih =>
    obtain ⟨a, b⟩ := hd
    by_cases ha : a = k
    · subst ha
      have hak : ¬ a = k' := fun he => h he.symm
      simp [dictSet, dictGet, hak]
    · simp [dictSet, dictGet, ha, ih]

theorem dictGet_dictDel_ne (d : List (α × β)) (k k' : α) (h : k' ≠ k) :
    dictGet (dictDel d k) k' = dictGet d k' := by
  induction d with
  | nil => simp [dictDel]
  | cons hd tl ih =>
    obtain ⟨a, b⟩ := hd
    by_cases ha : a = k
    · subst ha
      have hak : ¬ a = k' := fun he => h he.symm
      simp [dictDel, dictGet, hak]
    · simp [dictDel, dictGet, ha, ih]

theorem dictGet_dictModify_self (d : List (α × β)) (k : α) (g : β → β) :
    dictGet (dictModify d k g) k = (dictGet d k).map g := by
  induction d with
  | nil => simp [dictModify, dictGet]
  | cons hd tl ih =>
    obtain ⟨a, b⟩ := hd
    by_cases ha : a = k <;> simp [dictModify, dictGet, ha, ih]

theorem dictGet_dictModify_ne (d : List (α × β)) (k k' : α) (g : β → β) (h : k' ≠ k) :
    dictGet (dictModify d k g) k' = dictGet d k' := by
  induction d with
  | nil => simp [dictModify]
  | cons hd tl ih =>
    obtain ⟨a, b⟩ := hd
    by_cases ha : a = k
    · subst ha
      have hak : ¬ a = k' := fun he => h he.symm
      simp [dictModify, dictGet, hak]
    · simp [dictModify, dictGet, ha, ih]

theorem keys_dictModify (d : List (α × β)) (k : α) (g : β → β) :
    (dictModify d k g).map Prod.fst = d.map Prod.fst := by
  induction d with
  | nil => simp [dictModify]
  | cons hd tl ih =>
    obtain ⟨a, b⟩ := hd
    by_cases ha : a = k <;> simp [dictModify, ha, ih]

theorem mem_of_dictGet {d : List (α × β)} {k : α} {v : β}
    (h : dictGet d k = some v) : (k, v) ∈ d := by
  induction d with
  | nil => simp [dictGet] at h
  | cons hd tl ih =>
    obtain ⟨a, b⟩ := hd
    by_cases ha : a = k
    · subst ha
      simp [dictGet] at h
      simp [h]
    · simp [dictGet, ha] at h
      exact List.mem_cons_of_mem _ (ih h)

theorem dictGet_eq_none_iff (d : List (α × β)) (k : α) :
    dictGet d k = none ↔ k ∉ d.map Prod.fst := by
  induction d with
  | nil => simp [dictGet]
  | cons hd tl ih =>
    obtain ⟨a, b⟩ := hd
    by_cases ha : a = k
    · subst ha
      simp [dictGet]
    · simp [dictGet, ha, ih, Ne.symm ha]

theorem dictGet_of_mem {d : List (α × β)} {k : α} {v : β}
    (hnd : (d.map Prod.fst).Nodup) (h : (k, v) ∈ d) : dictGet d k = some v := by
  induction d with
  | nil => simp at h
  | cons hd tl ih =>
    obtain ⟨a, b⟩ := hd
    rw [List.map_cons, List.nodup_cons] at hnd
    rcases List.mem_cons.mp h with h1 | h1
    · injection h1 with hk hv
      subst hk
      subst hv
      simp [dictGet]
    · have hak : ¬ a = k :=
        fun he => hnd.1 (List.mem_map.mpr ⟨(k, v), h1, he.symm⟩)
      simp [dictGet, hak]
      exact ih hnd.2 h1

theorem dictDel_sublist (d : List (α × β)) (k : α) : (dictDel d k).Sublist d := by
  induction d with
  | nil => simp [dictDel]
  | cons hd tl ih =>
    obtain ⟨a, b⟩ := hd
    by_cases ha : a = k
    · simp [dictDel, ha]
    · simp only [dictDel, ha, if_false]
      exact ih.cons₂ (a, b)

theorem nodup_keys_dictDel {d : List (α × β)} (k : α)
    (h : (d.map Prod.fst).Nodup) : ((dictDel d k).map Prod.fst).Nodup :=
  List.Nodup.sublist ((dictDel_sublist d k).map Prod.fst) h

theorem dictGet_dictDel_self {d : List (α × β)} (k : α)
    (h : (d.map Prod.fst).Nodup) : dictGet (dictDel d k) k = none := by
  induction d with
  | nil => simp [dictDel, dictGet]
  | cons hd tl ih =>
    obtain ⟨a, b⟩ := hd
    rw [List.map_cons, List.nodup_cons] at h
    by_cases ha : a = k
    · subst ha
      simpa [dictDel, dictGet_eq_none_iff] using h.1
    · simp [dictDel, dictGet, ha]
      exact ih h.2

theorem dictGet_dictDel_some {d : List (α × β)} {j k : α} {v : β}
    (hnd : (d.map Prod.fst).Nodup)
    (h : dictGet (dictDel d j) k = some v) : dictGet d k = some v := by
  by_cases hkj : k = j
  · subst hkj
    rw [dictGet_dictDel_self k hnd] at h
    exact absurd h (by simp)
  · rwa [dictGet_dictDel_ne d j k hkj] at h

end Dict

/-! ## Data model: `File`, `FS` (the inode table) -/

/-- Python exceptions observed by the transport: `pyfuse3.FUSEError`
with an errno, or an uncaught `KeyError` / `TypeError`. -/
inductive Errno
  | ENOENT
  | ENOTDIR
  | ENOTEMPTY
deriving DecidableEq, Repr

inductive Err
  | fuse (code : Errno)
  | keyError
  | typeError
deriving DecidableEq, Repr

/-- `file.content`: a directory holds an insertion-ordered `name → inode`
dict; a regular file holds a byte buffer. -/
inductive Content
  | dir (entries : List (Bytes × Nat))
  | reg (data : Bytes)
deriving DecidableEq, Repr

/-- `stat.S_IFDIR | 0o755` -/
def dirMode : Nat := 0o040000 ||| 0o755

/-- `stat.S_IFREG | 0o644` -/
def regMode : Nat := 0o100000 ||| 0o644

/-- One filesystem entry, mirroring class `File` (`__slots__ = [name,
inode, size, content, mode, is_dir, parent]`).  `inode` is `None` until
`FS.add_file` assigns it; the pre-assignment value is modelled as `0`
(never a valid inode, which start at `ROOT_INODE = 1`). -/
structure File where
  name : Bytes
  inode : Nat
  size : Nat
  content : Content
  mode : Nat
  is_dir : Bool
  parent : Nat
deriving DecidableEq, Repr

/-- `File.__init__(name, parent_inode, content, is_dir)`.
`content if content else b''` treats `None` and `b''` alike. -/
def File.init (name : Bytes) (parent_inode : Nat) (content : Option Bytes)
    (is_dir : Bool) : File :=
  if is_dir then
    { name := name, inode := 0, parent := parent_inode, is_dir := true,
      mode := dirMode, content := .dir [], size := 0 }
  else
    let c := content.getD []
    { name := name, inode := 0, parent := parent_inode, is_dir := false,
      mode := regMode, content := .reg c, size := c.length }

/-- `pyfuse3.EntryAttributes`: the one shared attribute record; fields
not listed by the code default to `0`. -/
structure EntryAttributes where
  st_atime_ns : Nat := 0
  st_ctime_ns : Nat := 0
  st_mtime_ns : Nat := 0
  st_gid : Nat := 0
  st_uid : Nat := 0
  st_mode : Nat := 0
  st_size : Nat := 0
  st_ino : Nat := 0
deriving DecidableEq, Repr

/-- `pyfuse3.ROOT_INODE` -/
def ROOT_INODE : Nat := 1

/-- The inode table, mirroring class `FS`
(`__slots__ = [stat, files, inodes_created]`). -/
structure FS where
  stat : EntryAttributes
  files : List (Nat × File)
  inodes_created : Nat
deriving DecidableEq, Repr

/-- `FS.add_file`: assign `inodes_created` as the inode, register the
file, insert it into the parent's content dict when `file.parent` is
truthy, then bump the counter.  On a failure (parent absent → `KeyError`;
parent is a regular file → `TypeError` from `bytes` item assignment) the
partially mutated state is kept and the counter is NOT bumped, exactly
as in Python.  The third component is the (mutated) `File` object. -/
def FS.add_file (fs : FS) (f0 : File) : (Except Err Unit) × FS × File :=
  let f := { f0 with inode := fs.inodes_created }
  let files1 := dictSet fs.files f.inode f
  if f.parent ≠ 0 then
    match dictGet files1 f.parent with
    | none => (.error .keyError, { fs with files := files1 }, f)
    | some p =>
      match p.content with
      | .reg _ => (.error .typeError, { fs with files := files1 }, f)
      | .dir _ =>
        let files2 := dictModify files1 f.parent (fun q =>
          match q.content with
          | .dir l => { q with content := .dir (dictSet l f.name f.inode) }
          | .reg _ => q)
        (.ok (), { fs with files := files2,
                           inodes_created := fs.inodes_created + 1 }, f)
  else
    (.ok (), { fs with files := files1,
                       inodes_created := fs.inodes_created + 1 }, f)

/-- `FS.__init__(self)`: shared attribute template (with the ambient
time/gid/uid as parameters), empty table, counter at `ROOT_INODE`, then
`add_file(File(b'..', 0, None, True))` for the root. -/
def FS.construct (t gid uid : Nat) : FS :=
  let stat0 : EntryAttributes :=
    { st_atime_ns := t, st_ctime_ns := t, st_mtime_ns := t,
      st_gid := gid, st_uid := uid }
  let fs0 : FS := { stat := stat0, files := [], inodes_created := ROOT_INODE }
  (fs0.add_file (File.init [46, 46] 0 none true)).2.1

/-- `FS.get_file`: `files[inode]`, `KeyError` caught and re-raised as
`FUSEError(ENOENT)`. -/
def FS.get_file (fs : FS) (inode : Nat) : Except Err File :=
  match dictGet fs.files inode with
  | some f => .ok f
  | none => .error (.fuse .ENOENT)

/-- `FS.get_inode`: `files[parent_inode].content[name]` with `KeyError`
caught as `FUSEError(ENOENT)`.  When the parent is a regular file,
indexing `bytes` with a `bytes` key raises `TypeError`, which the
`except KeyError` clause does not catch. -/
def FS.get_inode (fs : FS) (parent_inode : Nat) (name : Bytes) : Except Err Nat :=
  match dictGet fs.files parent_inode with
  | none => .error (.fuse .ENOENT)
  | some p =>
    match p.content with
    | .reg _ => .error .typeError
    | .dir es =>
      match dictGet es name with
      | some i => .ok i
      | none => .error (.fuse .ENOENT)

/-- `FS.getattr_from_file`: overwrite the shared stat record's
mode/size/ino fields and return it. -/
def FS.getattr_from_file (fs : FS) (file : File) : EntryAttributes × FS :=
  let st := { fs.stat with st_mode := file.mode, st_size := file.size,
                           st_ino := file.inode }
  (st, { fs with stat := st })

/-- `FS.getattr` -/
def FS.getattr (fs : FS) (inode : Nat) : (Except Err EntryAttributes) × FS :=
  match fs.get_file inode with
  | .error e => (.error e, fs)
  | .ok file =>
    let r := fs.getattr_from_file file
    (.ok r.1, r.2)

/-- One step of the loop body of `FS.clean_files_without_parent`:
`cur` is the live dict, `e` the snapshot entry under examination. -/
def cleanStep (cur : List (Nat × File)) (e : Nat × File) : List (Nat × File) :=
  if e.1 ≠ ROOT_INODE ∧ dictGet cur e.2.parent = none then dictDel cur e.1 else cur

/-- `FS.clean_files_without_parent`: iterate over a snapshot
(`list(self.files.items())`) of the table, deleting from the live table
every non-root entry whose parent is absent from the live table at the
moment it is examined. -/
def FS.clean_files_without_parent (fs : FS) : FS :=
  { fs with files := fs.files.foldl cleanStep fs.files }

/-! ## The FUSE operation handlers (class `pngFS`) -/

namespace pngFS

/-- `pngFS.getattr` -/
def getattr (fs : FS) (inode : Nat) : (Except Err EntryAttributes) × FS :=
  fs.getattr inode

/-- `pngFS.lookup` -/
def lookup (fs : FS) (parent_inode : Nat) (name : Bytes) :
    (Except Err EntryAttributes) × FS :=
  match fs.get_inode parent_inode name with
  | .error e => (.error e, fs)
  | .ok inode => fs.getattr inode

/-- `pngFS.opendir`: the inode itself is the handle; `ENOTDIR` when the
node is a regular file. -/
def opendir (fs : FS) (inode : Nat) : Except Err Nat :=
  match fs.get_file inode with
  | .error e => .error e
  | .ok file => if file.is_dir then .ok inode else .error (.fuse .ENOTDIR)

/-- `pngFS.mkdir` (the unused `mode`/`ctx` parameters are dropped): build
a `File(name, inode_parent, None, True)`, `add_file` it, and return the
attributes of the new directory.  `self.write_timer.start()` is modelled
by `SingleShotTimer.fireTimes` below. -/
def mkdir (fs : FS) (inode_parent : Nat) (name : Bytes) :
    (Except Err EntryAttributes) × FS :=
  match fs.add_file (File.init name inode_parent none true) with
  | (.error e, fs1, _) => (.error e, fs1)
  | (.ok _, fs1, d) =>
    let r := fs1.getattr_from_file d
    (.ok r.1, r.2)

/-- `pngFS.create` (unused `mode`/`flags`/`ctx` dropped): like `mkdir`
for a regular file; returns `(FileInfo(fh=file.inode), attrs)`, the
handle being the inode. -/
def create (fs : FS) (inode_parent : Nat) (name : Bytes) :
    (Except Err (Nat × EntryAttributes)) × FS :=
  match fs.add_file (File.init name inode_parent none false) with
  | (.error e, fs1, _) => (.error e, fs1)
  | (.ok _, fs1, f) =>
    let r := fs1.getattr_from_file f
    (.ok (f.inode, r.1), r.2)

/-- `pngFS.open`: `FileInfo(fh=inode)`, no check at all. -/
def openFile (_fs : FS) (inode : Nat) : Nat := inode

/-- `pngFS.read`: `content[offset:offset+length]`; Python slicing clamps
both bounds to the buffer.  Slicing a directory's `dict` content raises
`TypeError`. -/
def read (fs : FS) (inode offset length : Nat) : Except Err Bytes :=
  match fs.get_file inode with
  | .error e => .error e
  | .ok f =>
    match f.content with
    | .dir _ => .error .typeError
    | .reg data => .ok ((data.drop offset).take length)

/-- `pngFS.write`: `content = bytes(data[:offset]) + buf +
bytes(data[offset+len(buf):])`, then `size = len(content)`; returns
`len(buf)`.  `memoryview` of a directory's `dict` raises `TypeError`. -/
def write (fs : FS) (inode offset : Nat) (buf : Bytes) :
    (Except Err Nat) × FS :=
  match fs.get_file inode with
  | .error e => (.error e, fs)
  | .ok f =>
    match f.content with
    | .dir _ => (.error .typeError, fs)
    | .reg data =>
      let newData := data.take offset ++ buf ++ data.drop (offset + buf.length)
      let f1 := { f with content := .reg newData, size := newData.length }
      (.ok buf.length, { fs with files := dictSet fs.files inode f1 })

/-- `pngFS.rmdir`: fetch the parent (`ENOENT` if absent), read
`parent.content[name]` raw (uncaught `KeyError` if the name is absent,
`TypeError` if the parent is regular), fetch the target (`ENOENT` if
dangling), raise `ENOTEMPTY` if its content is truthy, else delete the
name from the parent's dict and the inode from the table. -/
def rmdir (fs : FS) (parent_inode : Nat) (name : Bytes) :
    (Except Err Unit) × FS :=
  match fs.get_file parent_inode with
  | .error e => (.error e, fs)
  | .ok parent =>
    match parent.content with
    | .reg _ => (.error .typeError, fs)
    | .dir es =>
      match dictGet es name with
      | none => (.error .keyError, fs)
      | some inode =>
        match fs.get_file inode with
        | .error e => (.error e, fs)
        | .ok directory =>
          let nonempty : Bool :=
            match directory.content with
            | .dir l => !l.isEmpty
            | .reg b => !b.isEmpty
          if nonempty then (.error (.fuse .ENOTEMPTY), fs)
          else
            let files1 := dictModify fs.files parent_inode (fun q =>
              match q.content with
              | .dir l => { q with content := .dir (dictDel l name) }
              | .reg _ => q)
            let files2 := dictDel files1 inode
            (.ok (), { fs with files := files2 })

/-- `pngFS.unlink`: like `rmdir` but unconditional and regardless of
kind; note the table deletion happens before the parent-dict deletion. -/
def unlink (fs : FS) (parent_inode : Nat) (name : Bytes) :
    (Except Err Unit) × FS :=
  match fs.get_file parent_inode with
  | .error e => (.error e, fs)
  | .ok parent =>
    match parent.content with
    | .reg _ => (.error .typeError, fs)
    | .dir es =>
      match dictGet es name with
      | none => (.error .keyError, fs)
      | some inode =>
        let files1 := dictDel fs.files inode
        let files2 := dictModify files1 parent_inode (fun q =>
          match q.content with
          | .dir l => { q with content := .dir (dictDel l name) }
          | .reg _ => q)
        (.ok (), { fs with files := files2 })

/-- `pngFS.rename` (unused `flags`/`ctx` dropped): fetch both parents
(`ENOENT` if either is absent), read `old_parent.content[name_old]` raw
(uncaught `KeyError` if absent, `TypeError` if the old parent is
regular), delete the source binding, fetch the moved node from the live
table (`ENOENT` — with the source binding already deleted — if
dangling), set its `name`, and bind it in the new parent's dict,
silently overwriting any pre-existing destination binding.  The moved
node's `parent` field is NOT updated. -/
def rename (fs : FS) (parent_inode_old : Nat) (name_old : Bytes)
    (parent_inode_new : Nat) (name_new : Bytes) : (Except Err Unit) × FS :=
  match fs.get_file parent_inode_old with
  | .error e => (.error e, fs)
  | .ok old_parent =>
    match fs.get_file parent_inode_new with
    | .error e => (.error e, fs)
    | .ok _new_parent =>
      match old_parent.content with
      | .reg _ => (.error .typeError, fs)
      | .dir es =>
        match dictGet es name_old with
        | none => (.error .keyError, fs)
        | some inode =>
          let files1 := dictModify fs.files parent_inode_old (fun q =>
            match q.content with
            | .dir l => { q with content := .dir (dictDel l name_old) }
            | .reg _ => q)
          match dictGet files1 inode with
          | none => (.error (.fuse .ENOENT), { fs with files := files1 })
          | some _ =>
            let files2 := dictModify files1 inode
              (fun q => { q with name := name_new })
            match dictGet files2 parent_inode_new with
            | none => (.error .keyError, { fs with files := files2 })
            | some p2 =>
              match p2.content with
              | .reg _ => (.error .typeError, { fs with files := files2 })
              | .dir l2 =>
                let files3 := dictSet files2 parent_inode_new
                  { p2 with content := .dir (dictSet l2 name_new inode) }
                (.ok (), { fs with files := files3 })

end pngFS

/-! ## `SingleShotTimer` (the debounce scheduler) -/

/-- The timer's abstract state: the scheduled fire deadline of the
pending task, if any (`_task` in the source). -/
structure SingleShotTimer where
  delay : Nat
  task : Option Nat
deriving DecidableEq, Repr

/-- `SingleShotTimer.start`: cancel any pending, not-yet-fired task and
schedule a new one `delay` time units from now. -/
def SingleShotTimer.start (tm : SingleShotTimer) (now : Nat) : SingleShotTimer :=
  { tm with task := some (now + tm.delay) }

/-- Discrete-time trace semantics of the timer: given the strictly
increasing times at which `start()` is called, the times at which the
callback fires.  A task scheduled at `t` fires at `t + delay` unless a
later `start()` occurs at or before that deadline, in which case
`self._task.cancel()` cancels it; the final task always fires. -/
def SingleShotTimer.fireTimes (delay : Nat) : List Nat → List Nat
  | [] => []
  | [t] => [t + delay]
  | t :: t2 :: rest =>
    (if t + delay < t2 then [t + delay] else []) ++
      SingleShotTimer.fireTimes delay (t2 :: rest)

/-! ## Startup (`pngFS.__init__`) -/

/-- Modelled from the spec: the outcome of
`pickle.loads(pngdata.decode(args.png_file, False))` followed by the
in-`try` repair call, for the external codec `pngdata` (not part of the
core, out of scope per the spec).  Per the spec, loading fails only as:
missing backing file (`FileNotFoundError`), malformed blob
(`pickle.UnpicklingError`), or incompatible schema — a deserialized
object without the expected attributes (`AttributeError`).  These are
exactly the exception types the `except` clause of `pngFS.__init__`
catches. -/
inductive LoadResult
  | ok (fs : FS)
  | fileNotFound
  | attributeError
  | unpicklingError
deriving Repr

/-- `pngFS.__init__`, restricted to the construction of `self.files`:
on a successful load, the orphan-repair pass runs on the loaded table;
on any load failure, fall back to a fresh `FS()` (with the ambient
time/gid/uid `t`, `gid`, `uid`). -/
def pngFS.init_files (t gid uid : Nat) (r : LoadResult) : FS :=
  match r with
  | .ok fs => fs.clean_files_without_parent
  | .fileNotFound => FS.construct t gid uid
  | .attributeError => FS.construct t gid uid
  | .unpicklingError => FS.construct t gid uid

/-! ## Operation traces (for the inode-monotonicity claim) -/

/-- The tree-mutating FUSE operations of a trace: entry creation
(`mkdir`/`create`) and entry deletion (`unlink`/`rmdir`). -/
inductive Op
  | mkdir (parent : Nat) (name : Bytes)
  | create (parent : Nat) (name : Bytes)
  | unlink (parent : Nat) (name : Bytes)
  | rmdir (parent : Nat) (name : Bytes)
deriving DecidableEq, Repr

/-- The table state after one operation (the post state of the handler,
also kept when the handler raises, as in Python). -/
def Op.apply (op : Op) (fs : FS) : FS :=
  match op with
  | .mkdir p n => (pngFS.mkdir fs p n).2
  | .create p n => (pngFS.create fs p n).2
  | .unlink p n => (pngFS.unlink fs p n).2
  | .rmdir p n => (pngFS.rmdir fs p n).2

/-- The inode numbers assigned to the entries created by the completed
(non-raising) `mkdir`/`create` operations of a trace, in order.
`FS.add_file` assigns `fs.inodes_created` to the new entry. -/
def assignedInodes (fs : FS) : List Op → List Nat
  | [] => []
  | op :: rest =>
    (match op with
     | .mkdir p n => if (pngFS.mkdir fs p n).1.isOk then [fs.inodes_created] else []
     | .create p n => if (pngFS.create fs p n).1.isOk then [fs.inodes_created] else []
     | .unlink _ _ => []
     | .rmdir _ _ => []) ++ assignedInodes (op.apply fs) rest

/-! ## Invariant predicates -/

/-- The mutual-consistency invariant of the spec (claim C1): every
binding `name ↦ i` in any directory's content map points to a live node
whose `name` matches and whose `parent` field is that directory's
inode. -/
def FS.consistent (fs : FS) : Prop :=
  ∀ d D, dictGet fs.files d = some D → ∀ es, D.content = .dir es →
    ∀ nm i, dictGet es nm = some i →
      ∃ f, dictGet fs.files i = some f ∧ f.name = nm ∧ f.parent = d

/-- Every non-root entry's `parent` field names a key present in the
table (no orphans), as a decidable check. -/
def parentsPresentB (fs : FS) : Bool :=
  fs.files.all (fun e => e.1 == ROOT_INODE || (dictGet fs.files e.2.parent).isSome)

/-- `j` is bound in directory content maps only at `(pn, nn)`, as a
decidable check over the whole table. -/
def refsOnlyAt (fs : FS) (j pn : Nat) (nn : Bytes) : Bool :=
  fs.files.all (fun e =>
    match e.2.content with
    | .dir l => l.all (fun b => b.2 != j || (e.1 == pn && b.1 == nn))
    | .reg _ => true)

deriving instance DecidableEq for Except

section SanityChecks

example : (FS.construct 0 0 0).files =
    [(1, { name := [46, 46], inode := 1, size := 0, content := .dir [],
           mode := dirMode, is_dir := true, parent := 0 })] := by decide

example : (FS.construct 0 0 0).inodes_created = 2 := by decide

example :
    ((pngFS.mkdir (FS.construct 0 0 0) 1 [100]).2.files.map Prod.fst) = [1, 2] := by
  decide

example :
    (pngFS.write (pngFS.create (pngFS.mkdir (FS.construct 0 0 0) 1 [100]).2
        2 [97]).2 3 0 [104, 105]).1 = .ok 2 := by decide

end SanityChecks

/-! ## Helper lemmas about `pngFS.write` -/

theorem write_eval (fs : FS) (inode offset : Nat) (buf c : Bytes) (f : File)
    (hf : dictGet fs.files inode = some f) (hc : f.content = .reg c) :
    pngFS.write fs inode offset buf =
      (.ok buf.length,
       { fs with files := (dictSet fs.files inode
           { f with content := .reg (c.take offset ++ buf ++ c.drop (offset + buf.length)),
                    size := (c.take offset ++ buf ++ c.drop (offset + buf.length)).length }) }) := by
  obtain ⟨nm, ino, sz, ct, md, isd, par⟩ := f
  cases hc
  unfold pngFS.write FS.get_file
  rw [hf]

theorem read_eval (fs : FS) (inode offset length : Nat) (c : Bytes) (f : File)
    (hf : dictGet fs.files inode = some f) (hc : f.content = .reg c) :
    pngFS.read fs inode offset length = .ok ((c.drop offset).take length) := by
  obtain ⟨nm, ino, sz, ct, md, isd, par⟩ := f
  cases hc
  unfold pngFS.read FS.get_file
  rw [hf]

theorem take_min_eq_take (c : Bytes) (offset : Nat) :
    c.take (min offset c.length) = c.take offset := by
  rcases le_total offset c.length with h | h
  · rw [min_eq_left h]
  · rw [min_eq_right h, List.take_length, List.take_of_length_le h]

/-- C2: for every regular node with content `c`, `write(inode, offset,
buf)` leaves the node's content equal to
`c[:min(offset, len(c))] ++ buf ++ c[offset+len(buf):]` (slices clamped,
no zero-filling of a gap beyond end-of-file), sets `size` to the new
content length, and returns `len(buf)`. -/
theorem write_splices_content (fs : FS) (inode offset : Nat) (buf c : Bytes) (f : File)
    (hf : dictGet fs.files inode = some f) (hc : f.content = .reg c) :
    (pngFS.write fs inode offset buf).1 = .ok buf.length ∧
    ∃ f1, dictGet (pngFS.write fs inode offset buf).2.files inode = some f1 ∧
      f1.content = .reg (c.take (min offset c.length) ++ buf ++
        c.drop (offset + buf.length)) ∧
      f1.size = (c.take (min offset c.length) ++ buf ++
        c.drop (offset + buf.length)).length := by
  rw [write_eval fs inode offset buf c f hf hc]
  refine ⟨rfl, ?_⟩
  refine ⟨_, dictGet_dictSet_self _ _ _, ?_, ?_⟩
  · rw [take_min_eq_take]
  · rw [take_min_eq_take]

/-- Witness for C2 at a concrete input: the table obtained by creating
`a` (inode 2, content `[10, 11]` after a first write) then writing
`[7]` at offset 5 — beyond end-of-file, so no gap is zero-filled. -/
theorem write_splices_content_witness :
    ((pngFS.write (pngFS.write (pngFS.create (FS.construct 0 0 0) 1 [97]).2
        2 0 [10, 11]).2 2 5 [7]).1 = .ok 1 ∧
     ∃ f1, dictGet (pngFS.write (pngFS.write (pngFS.create (FS.construct 0 0 0) 1 [97]).2
        2 0 [10, 11]).2 2 5 [7]).2.files 2 = some f1 ∧
       f1.content = .reg (([10, 11] : Bytes).take (min 5 ([10, 11] : Bytes).length) ++ [7] ++
         ([10, 11] : Bytes).drop (5 + ([7] : Bytes).length)) ∧
       f1.size = (([10, 11] : Bytes).take (min 5 ([10, 11] : Bytes).length) ++ [7] ++
         ([10, 11] : Bytes).drop (5 + ([7] : Bytes).length)).length) :=
  write_splices_content
    (pngFS.write (pngFS.create (FS.construct 0 0 0) 1 [97]).2 2 0 [10, 11]).2
    2 5 [7] [10, 11]
    { name := [97], inode := 2, size := 2, content := .reg [10, 11],
      mode := regMode, is_dir := false, parent := 1 }
    rfl rfl

/-- C5: writing `buf` at offset 0 to a regular node and then reading
`len(buf)` bytes from offset 0 returns exactly `buf`. -/
theorem write_read_roundtrip (fs : FS) (inode : Nat) (buf c : Bytes) (f : File)
    (hf : dictGet fs.files inode = some f) (hc : f.content = .reg c) :
    pngFS.read (pngFS.write fs inode 0 buf).2 inode 0 buf.length = .ok buf := by
  rw [write_eval fs inode 0 buf c f hf hc]
  rw [read_eval _ inode 0 buf.length _ _ (dictGet_dictSet_self _ _ _) rfl]
  simp only [List.take_zero, List.nil_append, List.drop_zero, Nat.zero_add]
  rw [List.take_left]

/-- Witness for C5 at a concrete input. -/
theorem write_read_roundtrip_witness :
    pngFS.read (pngFS.write (pngFS.create (FS.construct 0 0 0) 1 [97]).2
      2 0 [104, 105]).2 2 0 ([104, 105] : Bytes).length = .ok [104, 105] :=
  write_read_roundtrip (pngFS.create (FS.construct 0 0 0) 1 [97]).2 2 [104, 105] []
    { name := [97], inode := 2, size := 0, content := .reg [],
      mode := regMode, is_dir := false, parent := 1 }
    rfl rfl

/-! ## Error codes for (parent, name) operations (claim C4) -/

/-- C4 counterexample: `unlink` on the fresh table with an absent name
raises an uncaught `KeyError`, not `FUSEError(ENOENT)` — so not every
(parent, name) operation surfaces the missing name as `NotFound`. -/
theorem unlink_missing_name_not_enoent :
    (pngFS.unlink (FS.construct 0 0 0) 1 [97]).1 = .error .keyError ∧
    (Except.error Err.keyError : Except Err Unit) ≠ .error (.fuse .ENOENT) :=
  ⟨rfl, by decide⟩

/-- C4 (amended): when the parent inode is unknown, `lookup`, `rmdir`,
`unlink` and `rename` (on its source) all fail with `FUSEError(ENOENT)`;
when the parent is a known directory but the name is absent from its
content map, `lookup` fails with `FUSEError(ENOENT)` while `rmdir`,
`unlink` and `rename` raise an uncaught `KeyError` instead. -/
theorem missing_name_error_codes (fs : FS) (p : Nat) (nm : Bytes) :
    (dictGet fs.files p = none →
       (pngFS.lookup fs p nm).1 = .error (.fuse .ENOENT) ∧
       (pngFS.rmdir fs p nm).1 = .error (.fuse .ENOENT) ∧
       (pngFS.unlink fs p nm).1 = .error (.fuse .ENOENT) ∧
       (∀ pn nn, (pngFS.rename fs p nm pn nn).1 = .error (.fuse .ENOENT))) ∧
    (∀ P es, dictGet fs.files p = some P → P.content = .dir es →
       dictGet es nm = none →
       (pngFS.lookup fs p nm).1 = .error (.fuse .ENOENT) ∧
       (pngFS.rmdir fs p nm).1 = .error .keyError ∧
       (pngFS.unlink fs p nm).1 = .error .keyError ∧
       (∀ pn PN nn, dictGet fs.files pn = some PN →
          (pngFS.rename fs p nm pn nn).1 = .error .keyError)) := by
  constructor
  · intro h
    refine ⟨?_, ?_, ?_, ?_⟩
    · simp only [pngFS.lookup, FS.get_inode, h]
    · simp only [pngFS.rmdir, FS.get_file, h]
    · simp only [pngFS.unlink, FS.get_file, h]
    · intro pn nn
      simp only [pngFS.rename, FS.get_file, h]
  · intro P es hP hPc hnm
    obtain ⟨Pn, Pi, Ps, Pct, Pm, Pd, Pp⟩ := P
    cases hPc
    refine ⟨?_, ?_, ?_, ?_⟩
    · simp only [pngFS.lookup, FS.get_inode, hP, hnm]
    · simp only [pngFS.rmdir, FS.get_file, hP, hnm]
    · simp only [pngFS.unlink, FS.get_file, hP, hnm]
    · intro pn PN nn hpn
      simp only [pngFS.rename, FS.get_file, hP, hpn, hnm]

/-- Witness for the amended C4 at concrete inputs: on the fresh table,
`rmdir(1, "b")` with absent name raises `KeyError` and `lookup(1, "b")`
returns `ENOENT`. -/
theorem missing_name_error_codes_witness :
    (pngFS.lookup (FS.construct 0 0 0) 1 [98]).1 = .error (.fuse .ENOENT) ∧
    (pngFS.rmdir (FS.construct 0 0 0) 1 [98]).1 = .error .keyError :=
  ⟨(((missing_name_error_codes (FS.construct 0 0 0) 1 [98]).2
      { name := [46, 46], inode := 1, size := 0, content := .dir [],
        mode := dirMode, is_dir := true, parent := 0 }
      [] rfl rfl rfl)).1,
   (((missing_name_error_codes (FS.construct 0 0 0) 1 [98]).2
      { name := [46, 46], inode := 1, size := 0, content := .dir [],
        mode := dirMode, is_dir := true, parent := 0 }
      [] rfl rfl rfl)).2.1⟩

/-! ## `rmdir` semantics (claim C8) -/

/-- C8: for a directory entry `(parent, name) ↦ i` whose target is a
directory with content map `l`: if `l` is non-empty, `rmdir` fails with
`FUSEError(ENOTEMPTY)` and changes no state; if `l` is empty, `rmdir`
succeeds, removes `name` from the parent's content map and removes the
node `i` from the inode table. -/
theorem rmdir_spec (fs : FS) (p i : Nat) (nm : Bytes) (P D : File)
    (es l : List (Bytes × Nat))
    (hnodup : (fs.files.map Prod.fst).Nodup)
    (hP : dictGet fs.files p = some P) (hPc : P.content = .dir es)
    (hnm : dictGet es nm = some i)
    (hD : dictGet fs.files i = some D) (hDc : D.content = .dir l) :
    (l ≠ [] → pngFS.rmdir fs p nm = (.error (.fuse .ENOTEMPTY), fs)) ∧
    (l = [] → (pngFS.rmdir fs p nm).1 = .ok () ∧
       dictGet (pngFS.rmdir fs p nm).2.files i = none ∧
       (∃ P2, dictGet (pngFS.rmdir fs p nm).2.files p = some P2 ∧
          P2.content = .dir (dictDel es nm))) := by
  obtain ⟨Pn, Pi, Ps, Pct, Pm, Pd, Pp⟩ := P
  cases hPc
  obtain ⟨Dn, Di, Ds, Dct, Dm, Dd, Dp⟩ := D
  cases hDc
  constructor
  · intro hl
    rcases l with _ | ⟨b, l2⟩
    · exact absurd rfl hl
    · simp only [pngFS.rmdir, FS.get_file, hP, hnm, hD, List.isEmpty_cons,
        Bool.not_false, if_true]
  · intro hl
    subst hl
    have hpi : p ≠ i := by
      intro he
      rw [he, hD] at hP
      injection hP with hPD
      injection hPD with h1 h2 h3 h4
      injection h4 with h5
      rw [← h5] at hnm
      exact absurd hnm (by simp [dictGet])
    simp only [pngFS.rmdir, FS.get_file, hP, hnm, hD, List.isEmpty_nil,
      Bool.not_true, Bool.false_eq_true, if_false]
    refine ⟨trivial, ?_, ?_⟩
    · exact dictGet_dictDel_self i (by rw [keys_dictModify]; exact hnodup)
    · refine ⟨{ name := Pn, inode := Pi, size := Ps,
                content := .dir (dictDel es nm), mode := Pm, is_dir := Pd,
                parent := Pp }, ?_, rfl⟩
      rw [dictGet_dictDel_ne _ i p hpi, dictGet_dictModify_self, hP]
      rfl

/-- Witness for C8 at concrete inputs: in `/docs/a.txt` (root 1, dir 2,
file 3 — claim scenario shape), `rmdir(1, "docs")` fails `ENOTEMPTY`
without state change; after also considering the empty directory `e`
(inode 4), `rmdir(1, "e")` deletes it. -/
theorem rmdir_spec_witness :
    (pngFS.rmdir (pngFS.create (pngFS.mkdir (FS.construct 0 0 0) 1 [100]).2
       2 [97]).2 1 [100] =
     (.error (.fuse .ENOTEMPTY),
      (pngFS.create (pngFS.mkdir (FS.construct 0 0 0) 1 [100]).2 2 [97]).2)) :=
  ((rmdir_spec (pngFS.create (pngFS.mkdir (FS.construct 0 0 0) 1 [100]).2 2 [97]).2
      1 2 [100]
      { name := [46, 46], inode := 1, size := 0, content := .dir [([100], 2)],
        mode := dirMode, is_dir := true, parent := 0 }
      { name := [100], inode := 2, size := 0, content := .dir [([97], 3)],
        mode := dirMode, is_dir := true, parent := 1 }
      [([100], 2)] [([97], 3)]
      (by decide) rfl rfl rfl rfl rfl).1 (by decide))

/-! ## Debounce (claim C9) -/

/-- C9: for every burst of `start()` calls in which each arming happens
strictly within the delay window of the previous one, every earlier
pending task is cancelled and only the final arming fires: the
persistence callback (`write_to_png` via `self._callback`) runs exactly
once, at `last + delay`. -/
theorem debounce_single_fire (delay t0 : Nat) (ts : List Nat)
    (hburst : List.Chain' (fun a b => a < b ∧ b < a + delay) (t0 :: ts)) :
    SingleShotTimer.fireTimes delay (t0 :: ts) = [ts.getLastD t0 + delay] := by
  induction ts generalizing t0 with
  | nil => rfl
  | cons t1 rest ih =>
    rw [List.chain'_cons] at hburst
    obtain ⟨⟨h1, h2⟩, hchain⟩ := hburst
    have hnot : ¬ (t0 + delay < t1) := by omega
    simp only [SingleShotTimer.fireTimes, if_neg hnot, List.nil_append]
    rw [ih t1 hchain, List.getLastD_cons]

/-- Witness for C9 at a concrete input: two armings at times 0 and 1
with delay 2 — e.g. two `write()` calls in one window — fire once, at
time 3. -/
theorem debounce_single_fire_witness :
    SingleShotTimer.fireTimes 2 [0, 1] = [1 + 2] :=
  debounce_single_fire 2 0 [1]
    (List.chain'_cons.mpr ⟨⟨by omega, by omega⟩, List.chain'_singleton _⟩)

/-! ## Startup fallback (claim C7) -/

/-- C7: `pngFS.__init__` never propagates a load failure — on a missing
file, malformed blob or incompatible schema it falls back to a fresh
table containing only the root — and on a successful load the
orphan-repair pass runs on the loaded table before anything else. -/
theorem init_files_fallback (t gid uid : Nat) (r : LoadResult) :
    (∀ fs, r = .ok fs →
       pngFS.init_files t gid uid r = fs.clean_files_without_parent) ∧
    (r = .fileNotFound ∨ r = .attributeError ∨ r = .unpicklingError →
       pngFS.init_files t gid uid r = FS.construct t gid uid) ∧
    (FS.construct t gid uid).files =
      [(ROOT_INODE,
        { name := [46, 46], inode := ROOT_INODE, size := 0,
          content := .dir [], mode := dirMode, is_dir := true,
          parent := 0 })] := by
  refine ⟨?_, ?_, rfl⟩
  · intro fs hr
    subst hr
    rfl
  · intro hr
    rcases hr with h | h | h <;> subst h <;> rfl

/-- Witness for C7 at concrete inputs: a missing backing file falls back
to the fresh table; a successful load is repaired. -/
theorem init_files_fallback_witness :
    pngFS.init_files 0 0 0 .fileNotFound = FS.construct 0 0 0 ∧
    pngFS.init_files 0 0 0 (.ok (FS.construct 0 0 0)) =
      (FS.construct 0 0 0).clean_files_without_parent :=
  ⟨(init_files_fallback 0 0 0 .fileNotFound).2.1 (Or.inl rfl),
   (init_files_fallback 0 0 0 (.ok (FS.construct 0 0 0))).1 _ rfl⟩

/-! ## The repair pass (claim C3) -/

/-- A corrupt table (as might result from a faulty load): entry 2 has
parent 3, entry 3 has the absent parent 99. -/
def corruptFS : FS :=
  { stat := {},
    files :=
      [(1, { name := [46, 46], inode := 1, size := 0, content := .dir [],
             mode := dirMode, is_dir := true, parent := 0 }),
       (2, { name := [97], inode := 2, size := 0, content := .reg [],
             mode := regMode, is_dir := false, parent := 3 }),
       (3, { name := [98], inode := 3, size := 0, content := .dir [],
             mode := dirMode, is_dir := true, parent := 99 })],
    inodes_created := 4 }

/-- C3 counterexample: the repair pass is not idempotent.  On
`corruptFS` the first pass keeps inode 2 (its parent 3 is still present
when it is examined) and removes inode 3; a second consecutive pass then
removes inode 2 as well. -/
theorem clean_not_idempotent :
    corruptFS.clean_files_without_parent.clean_files_without_parent ≠
      corruptFS.clean_files_without_parent ∧
    dictGet corruptFS.clean_files_without_parent.files 2 ≠ none ∧
    dictGet
      corruptFS.clean_files_without_parent.clean_files_without_parent.files
      2 = none :=
  ⟨by decide, by decide, by decide⟩

theorem cleanStep_nodup {cur : List (Nat × File)} (e : Nat × File)
    (h : (cur.map Prod.fst).Nodup) : ((cleanStep cur e).map Prod.fst).Nodup := by
  unfold cleanStep
  split
  · exact nodup_keys_dictDel _ h
  · exact h

theorem cleanStep_some {cur : List (Nat × File)} (e : Nat × File) {k : Nat}
    {v : File} (hnd : (cur.map Prod.fst).Nodup)
    (h : dictGet (cleanStep cur e) k = some v) : dictGet cur k = some v := by
  unfold cleanStep at h
  split at h
  · exact dictGet_dictDel_some hnd h
  · exact h

theorem cleanStep_none {cur : List (Nat × File)} (e : Nat × File) {k : Nat}
    (hnd : (cur.map Prod.fst).Nodup)
    (h : dictGet cur k = none) : dictGet (cleanStep cur e) k = none := by
  cases hres : dictGet (cleanStep cur e) k with
  | none => rfl
  | some v =>
    have h2 := cleanStep_some e hnd hres
    rw [h] at h2
    cases h2

theorem cleanFold_nodup (l : List (Nat × File)) {cur : List (Nat × File)}
    (hnd : (cur.map Prod.fst).Nodup) :
    ((l.foldl cleanStep cur).map Prod.fst).Nodup := by
  induction l generalizing cur with
  | nil => exact hnd
  | cons e rest ih => exact ih (cleanStep_nodup e hnd)

theorem cleanFold_some {l : List (Nat × File)} {cur : List (Nat × File)}
    {k : Nat} {v : File} (hnd : (cur.map Prod.fst).Nodup)
    (h : dictGet (l.foldl cleanStep cur) k = some v) : dictGet cur k = some v := by
  induction l generalizing cur with
  | nil => exact h
  | cons e rest ih => exact cleanStep_some e hnd (ih (cleanStep_nodup e hnd) h)

theorem cleanFold_none {l : List (Nat × File)} {cur : List (Nat × File)}
    {k : Nat} (hnd : (cur.map Prod.fst).Nodup)
    (h : dictGet cur k = none) : dictGet (l.foldl cleanStep cur) k = none := by
  cases hres : dictGet (l.foldl cleanStep cur) k with
  | none => rfl
  | some v =>
    have h2 := cleanFold_some hnd hres
    rw [h] at h2
    cases h2

theorem cleanStep_root (cur : List (Nat × File)) (e : Nat × File) :
    dictGet (cleanStep cur e) ROOT_INODE = dictGet cur ROOT_INODE := by
  unfold cleanStep
  split
  · next hcond => exact dictGet_dictDel_ne _ _ _ (fun he => hcond.1 he.symm)
  · rfl

theorem cleanFold_root (l : List (Nat × File)) (cur : List (Nat × File)) :
    dictGet (l.foldl cleanStep cur) ROOT_INODE = dictGet cur ROOT_INODE := by
  induction l generalizing cur with
  | nil => rfl
  | cons e rest ih => rw [List.foldl_cons, ih, cleanStep_root]

theorem cleanFold_removes {snapshot cur : List (Nat × File)} {i : Nat} {f : File}
    (hnd : (cur.map Prod.fst).Nodup)
    (hmem : (i, f) ∈ snapshot) (hroot : i ≠ ROOT_INODE)
    (hparent : dictGet cur f.parent = none) :
    dictGet (snapshot.foldl cleanStep cur) i = none := by
  induction snapshot generalizing cur with
  | nil => cases hmem
  | cons e rest ih =>
    rcases List.mem_cons.mp hmem with he | he
    · have hstep : cleanStep cur e = dictDel cur i := by
        rw [← he]
        unfold cleanStep
        rw [if_pos ⟨hroot, hparent⟩]
      rw [List.foldl_cons, hstep]
      exact cleanFold_none (nodup_keys_dictDel i hnd) (dictGet_dictDel_self i hnd)
    · rw [List.foldl_cons]
      exact ih (cleanStep_nodup e hnd) he (cleanStep_none e hnd hparent)

/-- C3 (amended): a single repair pass removes every non-root entry
whose parent was absent from the table when the pass started, never
touches the root binding, and every surviving binding is unchanged from
the input; but it is not exact and not idempotent in general — it can
also remove entries orphaned mid-pass, and (as `clean_not_idempotent`
shows) a second consecutive pass can remove further entries when a
child is examined before its to-be-removed parent. -/
theorem clean_removes_start_orphans (fs : FS)
    (hnodup : (fs.files.map Prod.fst).Nodup) :
    (∀ i f, dictGet fs.files i = some f → i ≠ ROOT_INODE →
       dictGet fs.files f.parent = none →
       dictGet fs.clean_files_without_parent.files i = none) ∧
    dictGet fs.clean_files_without_parent.files ROOT_INODE =
      dictGet fs.files ROOT_INODE ∧
    (∀ i f, dictGet fs.clean_files_without_parent.files i = some f →
       dictGet fs.files i = some f) := by
  refine ⟨?_, ?_, ?_⟩
  · intro i f hi hroot hparent
    exact cleanFold_removes hnodup (mem_of_dictGet hi) hroot hparent
  · exact cleanFold_root _ _
  · intro i f h
    exact cleanFold_some hnodup h

/-- Witness for the amended C3 on `corruptFS`: the start-orphan inode 3
is removed, and the root binding survives unchanged. -/
theorem clean_removes_start_orphans_witness :
    dictGet corruptFS.clean_files_without_parent.files 3 = none ∧
    dictGet corruptFS.clean_files_without_parent.files ROOT_INODE =
      dictGet corruptFS.files ROOT_INODE :=
  ⟨(clean_removes_start_orphans corruptFS (by decide)).1 3
     { name := [98], inode := 3, size := 0, content := .dir [],
       mode := dirMode, is_dir := true, parent := 99 } rfl (by decide) rfl,
   (clean_removes_start_orphans corruptFS (by decide)).2.1⟩

/-! ## Inode monotonicity (claim C6) -/

theorem add_file_counter (fs : FS) (f0 : File) :
    fs.inodes_created ≤ (fs.add_file f0).2.1.inodes_created := by
  unfold FS.add_file
  dsimp only
  split
  · split
    · exact le_refl _
    · split
      · exact le_refl _
      · exact Nat.le_succ _
  · exact Nat.le_succ _

theorem add_file_counter_ok (fs : FS) (f0 : File)
    (h : (fs.add_file f0).1.isOk = true) :
    (fs.add_file f0).2.1.inodes_created = fs.inodes_created + 1 := by
  revert h
  unfold FS.add_file
  dsimp only
  split
  · split
    · intro h
      simp [Except.isOk, Except.toBool] at h
    · split
      · intro h
        simp [Except.isOk, Except.toBool] at h
      · intro _
        rfl
  · intro _
    rfl

theorem mkdir_counter (fs : FS) (p : Nat) (n : Bytes) :
    fs.inodes_created ≤ (pngFS.mkdir fs p n).2.inodes_created := by
  have h := add_file_counter fs (File.init n p none true)
  unfold pngFS.mkdir
  rcases hadd : fs.add_file (File.init n p none true) with ⟨err, fs1, d⟩
  rw [hadd] at h
  cases err
  · simpa [FS.getattr_from_file] using h
  · simpa [FS.getattr_from_file] using h

theorem mkdir_counter_ok (fs : FS) (p : Nat) (n : Bytes)
    (h : (pngFS.mkdir fs p n).1.isOk = true) :
    (pngFS.mkdir fs p n).2.inodes_created = fs.inodes_created + 1 := by
  have hok := add_file_counter_ok fs (File.init n p none true)
  unfold pngFS.mkdir at h ⊢
  rcases hadd : fs.add_file (File.init n p none true) with ⟨err, fs1, d⟩
  rw [hadd] at h hok
  cases err
  · simp [Except.isOk, Except.toBool] at h
  · simpa [FS.getattr_from_file] using hok rfl

theorem create_counter (fs : FS) (p : Nat) (n : Bytes) :
    fs.inodes_created ≤ (pngFS.create fs p n).2.inodes_created := by
  have h := add_file_counter fs (File.init n p none false)
  unfold pngFS.create
  rcases hadd : fs.add_file (File.init n p none false) with ⟨err, fs1, d⟩
  rw [hadd] at h
  cases err
  · simpa [FS.getattr_from_file] using h
  · simpa [FS.getattr_from_file] using h

theorem create_counter_ok (fs : FS) (p : Nat) (n : Bytes)
    (h : (pngFS.create fs p n).1.isOk = true) :
    (pngFS.create fs p n).2.inodes_created = fs.inodes_created + 1 := by
  have hok := add_file_counter_ok fs (File.init n p none false)
  unfold pngFS.create at h ⊢
  rcases hadd : fs.add_file (File.init n p none false) with ⟨err, fs1, d⟩
  rw [hadd] at h hok
  cases err
  · simp [Except.isOk, Except.toBool] at h
  · simpa [FS.getattr_from_file] using hok rfl

theorem unlink_counter (fs : FS) (p : Nat) (n : Bytes) :
    (pngFS.unlink fs p n).2.inodes_created = fs.inodes_created := by
  unfold pngFS.unlink FS.get_file
  split
  · rfl
  · split
    · rfl
    · split
      · rfl
      · rfl

theorem rmdir_counter (fs : FS) (p : Nat) (n : Bytes) :
    (pngFS.rmdir fs p n).2.inodes_created = fs.inodes_created := by
  unfold pngFS.rmdir FS.get_file
  repeat' split
  all_goals first
    | rfl
    | (dsimp only; split <;> rfl)

theorem op_apply_counter (op : Op) (fs : FS) :
    fs.inodes_created ≤ (op.apply fs).inodes_created := by
  cases op with
  | mkdir p n => exact mkdir_counter fs p n
  | create p n => exact create_counter fs p n
  | unlink p n => exact le_of_eq (unlink_counter fs p n).symm
  | rmdir p n => exact le_of_eq (rmdir_counter fs p n).symm

theorem assignedInodes_lb (ops : List Op) :
    ∀ (fs : FS) (x : Nat), x ∈ assignedInodes fs ops →
      fs.inodes_created ≤ x := by
  induction ops with
  | nil =>
    intro fs x hx
    cases hx
  | cons op rest ih =>
    intro fs x hx
    unfold assignedInodes at hx
    rw [List.mem_append] at hx
    rcases hx with hx | hx
    · cases op with
      | mkdir p n =>
        by_cases hok : (pngFS.mkdir fs p n).1.isOk = true <;>
          simp [hok] at hx
        rw [hx]
      | create p n =>
        by_cases hok : (pngFS.create fs p n).1.isOk = true <;>
          simp [hok] at hx
        rw [hx]
      | unlink p n => cases hx
      | rmdir p n => cases hx
    · exact le_trans (op_apply_counter op fs) (ih (op.apply fs) x hx)

/-- C6: across any sequence of `mkdir`/`create`/`unlink`/`rmdir`
operations on one table, the inode numbers assigned to the entries
created by the completed creations strictly increase, and no inode
number is assigned twice — deletions never make a number available
again, because `inodes_created` never decreases. -/
theorem assigned_inodes_strictly_increasing (fs : FS) (ops : List Op) :
    List.Pairwise (· < ·) (assignedInodes fs ops) ∧
    (assignedInodes fs ops).Nodup := by
  have main : List.Pairwise (· < ·) (assignedInodes fs ops) := by
    induction ops generalizing fs with
    | nil => exact List.Pairwise.nil
    | cons op rest ih =>
      unfold assignedInodes
      cases op with
      | mkdir p n =>
        by_cases hok : (pngFS.mkdir fs p n).1.isOk = true
        · simp only [hok, if_true, List.singleton_append]
          refine List.pairwise_cons.mpr ⟨?_, ih _⟩
          intro y hy
          have hlb := assignedInodes_lb rest (Op.apply (.mkdir p n) fs) y hy
          have hbump := mkdir_counter_ok fs p n hok
          have : (Op.apply (.mkdir p n) fs).inodes_created =
              fs.inodes_created + 1 := hbump
          omega
        · simp only [hok, if_false, List.nil_append]
          exact ih _
      | create p n =>
        by_cases hok : (pngFS.create fs p n).1.isOk = true
        · simp only [hok, if_true, List.singleton_append]
          refine List.pairwise_cons.mpr ⟨?_, ih _⟩
          intro y hy
          have hlb := assignedInodes_lb rest (Op.apply (.create p n) fs) y hy
          have hbump := create_counter_ok fs p n hok
          have : (Op.apply (.create p n) fs).inodes_created =
              fs.inodes_created + 1 := hbump
          omega
        · simp only [hok, if_false, List.nil_append]
          exact ih _
      | unlink p n =>
        simp only [List.nil_append]
        exact ih _
      | rmdir p n =>
        simp only [List.nil_append]
        exact ih _
  exact ⟨main, main.imp (fun h => Nat.ne_of_lt h)⟩

/-! ## Parent-link consistency (claim C1) -/

/-- The table after `mkdir(1, "a") → 2`, `mkdir(1, "b") → 3`,
`create(2, "f") → 4`, `rename(2, "f", 3, "f")` — a completed
cross-directory rename. -/
def renamedFS : FS :=
  (pngFS.rename
    (pngFS.create
      (pngFS.mkdir (pngFS.mkdir (FS.construct 0 0 0) 1 [97]).2 1 [98]).2
      2 [102]).2
    2 [102] 3 [102]).2

/-- C1 (code bug): after the completed cross-directory `rename` above,
the moved node 4 appears in directory 3's content map under its name,
but its `parent` field still says 2 — the content maps and the parent
links are not mutually consistent, contradicting the spec invariant.
`pngFS.rename` updates `file.name` and the two content maps but never
`file.parent`; `clean_files_without_parent` trusts `parent`, so a later
repair pass can delete a still-reachable file. -/
theorem rename_breaks_parent_consistency :
    (pngFS.rename
      (pngFS.create
        (pngFS.mkdir (pngFS.mkdir (FS.construct 0 0 0) 1 [97]).2 1 [98]).2
        2 [102]).2
      2 [102] 3 [102]).1 = .ok () ∧
    (dictGet renamedFS.files 3).map (fun f => f.content) =
      some (.dir [([102], 4)]) ∧
    (dictGet renamedFS.files 4).map (fun f => f.parent) = some 2 ∧
    ¬ FS.consistent renamedFS := by
  refine ⟨rfl, by decide, by decide, ?_⟩
  intro h
  obtain ⟨f, hf, hname, hparent⟩ := h 3 _ rfl _ rfl [102] 4 rfl
  have e1 : (dictGet renamedFS.files 4).map (fun g => g.parent) = some 2 := by
    decide
  rw [hf] at e1
  simp only [Option.map_some'] at e1
  injection e1 with e2
  rw [hparent] at e2
  exact absurd e2 (by decide)

/-! ## Rename-overwrite orphaning (claim C10): support lemmas -/

theorem keys_dictSet_mem {α β : Type _} [DecidableEq α]
    (d : List (α × β)) (k : α) (v v0 : β) (h : dictGet d k = some v0) :
    (dictSet d k v).map Prod.fst = d.map Prod.fst := by
  induction d with
  | nil => simp [dictGet] at h
  | cons hd tl ih =>
    obtain ⟨a, b⟩ := hd
    by_cases ha : a = k
    · simp [dictSet, ha]
    · simp only [dictGet, ha, if_false] at h
      simp [dictSet, ha, ih h]

theorem delctl_parent (no : Bytes) (q : File) :
    ((fun (q : File) => match q.content with
       | Content.dir l =>
         { q with content := Content.dir (dictDel l no) }
       | Content.reg _ => q) q).parent = q.parent := by
  obtain ⟨nm, ino, sz, ct, md, isd, par⟩ := q
  cases ct <;> rfl

theorem dictGet_map_parent_modify (d : List (Nat × File)) (k k' : Nat)
    (g : File → File) (hg : ∀ q, (g q).parent = q.parent) :
    (dictGet (dictModify d k g) k').map File.parent =
      (dictGet d k').map File.parent := by
  by_cases h : k' = k
  · subst h
    rw [dictGet_dictModify_self]
    cases dictGet d k' <;> simp [hg]
  · rw [dictGet_dictModify_ne _ _ _ _ h]

theorem refsOnlyAt_spec {fs : FS} {j pn : Nat} {nn : Bytes}
    (h : refsOnlyAt fs j pn nn = true) :
    ∀ p pf l nm, dictGet fs.files p = some pf → pf.content = .dir l →
      dictGet l nm = some j → p = pn ∧ nm = nn := by
  intro p pf l nm hp hc hl
  rw [refsOnlyAt, List.all_eq_true] at h
  have h2 := h _ (mem_of_dictGet hp)
  dsimp only at h2
  rw [hc, List.all_eq_true] at h2
  have h3 := h2 _ (mem_of_dictGet hl)
  simp at h3
  exact h3

theorem parentsPresentB_spec {fs : FS} (h : parentsPresentB fs = true) :
    ∀ k f, dictGet fs.files k = some f → k ≠ ROOT_INODE →
      (dictGet fs.files f.parent).isSome = true := by
  intro k f hk hroot
  rw [parentsPresentB, List.all_eq_true] at h
  have h2 := h _ (mem_of_dictGet hk)
  simp at h2
  rcases h2 with h2 | h2
  · exact absurd h2 hroot
  · exact h2

theorem clean_id_of_parents_present (fs : FS)
    (hnodup : (fs.files.map Prod.fst).Nodup)
    (hwf : ∀ k f, dictGet fs.files k = some f → k ≠ ROOT_INODE →
       (dictGet fs.files f.parent).isSome = true) :
    fs.clean_files_without_parent = fs := by
  unfold FS.clean_files_without_parent
  have main : ∀ (l : List (Nat × File)), (∀ e ∈ l, e ∈ fs.files) →
      l.foldl cleanStep fs.files = fs.files := by
    intro l
    induction l with
    | nil => intro _; rfl
    | cons e rest ih =>
      intro hsub
      rw [List.foldl_cons]
      have he : e ∈ fs.files := hsub e (List.mem_cons_self e rest)
      have hstep : cleanStep fs.files e = fs.files := by
        unfold cleanStep
        by_cases hroot : e.1 = ROOT_INODE
        · rw [if_neg]
          intro hcond
          exact hcond.1 hroot
        · have hget : dictGet fs.files e.1 = some e.2 :=
            dictGet_of_mem hnodup he
          have hpar := hwf e.1 e.2 hget hroot
          rw [if_neg]
          intro hcond
          rw [hcond.2] at hpar
          simp at hpar
      rw [hstep]
      exact ih (fun x hx => hsub x (List.mem_cons_of_mem e hx))
  rw [main fs.files (fun e he => he)]

theorem rename_eval (fs : FS) (po pn i : Nat) (no nn : Bytes)
    (PO fI P2 : File) (esO l2 : List (Bytes × Nat))
    (hPO : dictGet fs.files po = some PO) (hesO : PO.content = .dir esO)
    (hpnsome : (dictGet fs.files pn).isSome = true)
    (hio : dictGet esO no = some i)
    (hfI : dictGet (dictModify fs.files po (fun q =>
        match q.content with
        | Content.dir l => { q with content := Content.dir (dictDel l no) }
        | Content.reg _ => q)) i = some fI)
    (hP2 : dictGet (dictModify
        (dictModify fs.files po (fun q =>
          match q.content with
          | Content.dir l => { q with content := Content.dir (dictDel l no) }
          | Content.reg _ => q))
        i (fun q => { q with name := nn })) pn = some P2)
    (hl2 : P2.content = .dir l2) :
    pngFS.rename fs po no pn nn =
      (.ok (), { fs with files := (dictSet
        (dictModify
          (dictModify fs.files po (fun q =>
            match q.content with
            | Content.dir l => { q with content := Content.dir (dictDel l no) }
            | Content.reg _ => q))
          i (fun q => { q with name := nn })) pn
        { P2 with content := Content.dir (dictSet l2 nn i) }) }) := by
  obtain ⟨PN, hPN⟩ : ∃ x, dictGet fs.files pn = some x := by
    cases hx : dictGet fs.files pn with
    | none => rw [hx] at hpnsome; simp at hpnsome
    | some x => exact ⟨x, rfl⟩
  obtain ⟨nm, ino, sz, ct, md, isd, par⟩ := PO
  cases hesO
  simp only [pngFS.rename, FS.get_file, hPO, hPN, hio, hfI, hP2, hl2]

theorem rename_overwrite_core (fs : FS) (po pn i j : Nat) (no nn : Bytes)
    (PO fI fJ P2 : File) (esO l2 : List (Bytes × Nat))
    (hnodup : (fs.files.map Prod.fst).Nodup)
    (hesOnodup : (esO.map Prod.fst).Nodup)
    (hwf : parentsPresentB fs = true)
    (hPO : dictGet fs.files po = some PO) (hesO : PO.content = .dir esO)
    (hpnsome : (dictGet fs.files pn).isSome = true)
    (hio : dictGet esO no = some i)
    (hI : dictGet fs.files i = some fI)
    (hJ : dictGet fs.files j = some fJ)
    (hji : j ≠ i) (hipo : i ≠ po) (hipn : i ≠ pn)
    (hjpo : j ≠ po) (hjpn : j ≠ pn)
    (huniq : refsOnlyAt fs j pn nn = true)
    (hP2 : dictGet (dictModify
        (dictModify fs.files po (fun q =>
          match q.content with
          | Content.dir l => { q with content := Content.dir (dictDel l no) }
          | Content.reg _ => q))
        i (fun q => { q with name := nn })) pn = some P2)
    (hl2 : P2.content = .dir l2)
    (hl2refs : ∀ nm, nm ≠ nn → dictGet l2 nm ≠ some j) :
    (pngFS.rename fs po no pn nn).1 = .ok () ∧
    dictGet (pngFS.rename fs po no pn nn).2.files j = some fJ ∧
    (∀ p pf l nm, dictGet (pngFS.rename fs po no pn nn).2.files p = some pf →
       pf.content = .dir l → dictGet l nm ≠ some j) ∧
    dictGet
      ((pngFS.rename fs po no pn nn).2.clean_files_without_parent).files j =
      some fJ := by
  have hfI1 : dictGet (dictModify fs.files po (fun q =>
      match q.content with
      | Content.dir l => { q with content := Content.dir (dictDel l no) }
      | Content.reg _ => q)) i = some fI := by
    rw [dictGet_dictModify_ne _ _ _ _ hipo]
    exact hI
  have hev := rename_eval fs po pn i no nn PO fI P2 esO l2 hPO hesO hpnsome
    hio hfI1 hP2 hl2
  -- names for the three intermediate tables
  have hgetj : dictGet (dictSet (dictModify
      (dictModify fs.files po (fun q =>
        match q.content with
        | Content.dir l => { q with content := Content.dir (dictDel l no) }
        | Content.reg _ => q))
      i (fun q => { q with name := nn })) pn
      { P2 with content := Content.dir (dictSet l2 nn i) }) j = some fJ := by
    rw [dictGet_dictSet_ne _ _ _ _ hjpn]
    rw [dictGet_dictModify_ne _ _ _ _ hji]
    rw [dictGet_dictModify_ne _ _ _ _ hjpo]
    exact hJ
  have hg1PO : (match PO.content with
      | Content.dir l => { PO with content := Content.dir (dictDel l no) }
      | Content.reg _ => PO) =
      { PO with content := Content.dir (dictDel esO no) } := by
    rw [hesO]
  have hnorefs : ∀ p pf l nm, dictGet (dictSet (dictModify
      (dictModify fs.files po (fun q =>
        match q.content with
        | Content.dir l => { q with content := Content.dir (dictDel l no) }
        | Content.reg _ => q))
      i (fun q => { q with name := nn })) pn
      { P2 with content := Content.dir (dictSet l2 nn i) }) p = some pf →
      pf.content = .dir l → dictGet l nm ≠ some j := by
    intro p pf l nm hp hc hlj
    by_cases hppn : p = pn
    · subst hppn
      rw [dictGet_dictSet_self] at hp
      injection hp with hp2
      subst hp2
      have hlc : Content.dir (dictSet l2 nn i) = Content.dir l := hc
      injection hlc with hleq
      subst hleq
      by_cases hnm : nm = nn
      · subst hnm
        rw [dictGet_dictSet_self] at hlj
        injection hlj with he
        exact hji he.symm
      · rw [dictGet_dictSet_ne _ _ _ _ hnm] at hlj
        exact hl2refs nm hnm hlj
    · rw [dictGet_dictSet_ne _ _ _ _ hppn] at hp
      by_cases hpi : p = i
      · subst hpi
        rw [dictGet_dictModify_self, hfI1] at hp
        simp only [Option.map_some'] at hp
        injection hp with hp2
        subst hp2
        have hcontent : fI.content = .dir l := hc
        exact absurd (refsOnlyAt_spec huniq p fI l nm hI hcontent hlj).1 hppn
      · rw [dictGet_dictModify_ne _ _ _ _ hpi] at hp
        by_cases hppo : p = po
        · subst hppo
          rw [dictGet_dictModify_self, hPO] at hp
          simp only [Option.map_some'] at hp
          rw [hg1PO] at hp
          injection hp with hp2
          subst hp2
          have hlc : Content.dir (dictDel esO no) = Content.dir l := hc
          injection hlc with hleq
          subst hleq
          by_cases hno : nm = no
          · subst hno
            rw [dictGet_dictDel_self nm hesOnodup] at hlj
            simp at hlj
          · rw [dictGet_dictDel_ne _ _ _ hno] at hlj
            exact absurd
              (refsOnlyAt_spec huniq p PO esO nm hPO hesO hlj).1 hppn
        · rw [dictGet_dictModify_ne _ _ _ _ hppo] at hp
          exact absurd (refsOnlyAt_spec huniq p pf l nm hp hc hlj).1 hppn
  have hpm : ∀ k, (dictGet (dictSet (dictModify
      (dictModify fs.files po (fun q =>
        match q.content with
        | Content.dir l => { q with content := Content.dir (dictDel l no) }
        | Content.reg _ => q))
      i (fun q => { q with name := nn })) pn
      { P2 with content := Content.dir (dictSet l2 nn i) }) k).map File.parent =
      (dictGet fs.files k).map File.parent := by
    intro k
    by_cases hk : k = pn
    · subst hk
      rw [dictGet_dictSet_self]
      have h1 := dictGet_map_parent_modify
        (dictModify fs.files po (fun q =>
          match q.content with
          | Content.dir l => { q with content := Content.dir (dictDel l no) }
          | Content.reg _ => q))
        i k (fun q => { q with name := nn }) (fun q => rfl)
      have h0 := dictGet_map_parent_modify fs.files po k
        (fun q =>
          match q.content with
          | Content.dir l => { q with content := Content.dir (dictDel l no) }
          | Content.reg _ => q)
        (delctl_parent no)
      rw [← h0, ← h1, hP2]
      rfl
    · rw [dictGet_dictSet_ne _ _ _ _ hk]
      rw [dictGet_map_parent_modify
        (dictModify fs.files po (fun q =>
          match q.content with
          | Content.dir l => { q with content := Content.dir (dictDel l no) }
          | Content.reg _ => q))
        i k (fun q => { q with name := nn }) (fun q => rfl)]
      rw [dictGet_map_parent_modify fs.files po k
        (fun q =>
          match q.content with
          | Content.dir l => { q with content := Content.dir (dictDel l no) }
          | Content.reg _ => q)
        (delctl_parent no)]
  have hkeys : ((dictSet (dictModify
      (dictModify fs.files po (fun q =>
        match q.content with
        | Content.dir l => { q with content := Content.dir (dictDel l no) }
        | Content.reg _ => q))
      i (fun q => { q with name := nn })) pn
      { P2 with content := Content.dir (dictSet l2 nn i) }).map Prod.fst) =
      fs.files.map Prod.fst := by
    rw [keys_dictSet_mem _ _ _ _ hP2, keys_dictModify, keys_dictModify]
  refine ⟨by rw [hev], by rw [hev]; exact hgetj, ?_, ?_⟩
  · intro p pf l nm hp hc
    rw [hev] at hp
    exact hnorefs p pf l nm hp hc
  · rw [hev]
    have hnodup2 : (((pngFS.rename fs po no pn nn).2.files.map Prod.fst)).Nodup := by
      rw [hev]
      show ((dictSet (dictModify
        (dictModify fs.files po (fun q =>
          match q.content with
          | Content.dir l => { q with content := Content.dir (dictDel l no) }
          | Content.reg _ => q))
        i (fun q => { q with name := nn })) pn
        { P2 with content := Content.dir (dictSet l2 nn i) }).map Prod.fst).Nodup
      rw [hkeys]
      exact hnodup
    have hwf2 : ∀ k f', dictGet (dictSet (dictModify
        (dictModify fs.files po (fun q =>
          match q.content with
          | Content.dir l => { q with content := Content.dir (dictDel l no) }
          | Content.reg _ => q))
        i (fun q => { q with name := nn })) pn
        { P2 with content := Content.dir (dictSet l2 nn i) }) k = some f' →
        k ≠ ROOT_INODE →
        (dictGet (dictSet (dictModify
          (dictModify fs.files po (fun q =>
            match q.content with
            | Content.dir l => { q with content := Content.dir (dictDel l no) }
            | Content.reg _ => q))
          i (fun q => { q with name := nn })) pn
          { P2 with content := Content.dir (dictSet l2 nn i) })
          f'.parent).isSome = true := by
      intro k f' hk' hroot
      have hpk := hpm k
      rw [hk'] at hpk
      cases hfs : dictGet fs.files k with
      | none =>
        rw [hfs] at hpk
        simp at hpk
      | some f0 =>
        rw [hfs] at hpk
        simp only [Option.map_some'] at hpk
        injection hpk with hpk2
        have hps := parentsPresentB_spec hwf k f0 hfs hroot
        have hiso := congrArg Option.isSome (hpm f'.parent)
        simp only [Option.isSome_map'] at hiso
        rw [hiso, hpk2]
        exact hps
    have hcl := clean_id_of_parents_present
      ({ fs with files := (dictSet (dictModify
        (dictModify fs.files po (fun q =>
          match q.content with
          | Content.dir l => { q with content := Content.dir (dictDel l no) }
          | Content.reg _ => q))
        i (fun q => { q with name := nn })) pn
        { P2 with content := Content.dir (dictSet l2 nn i) }) })
      (by rw [hev] at hnodup2; exact hnodup2) hwf2
    rw [hcl]
    exact hgetj

/-- C10: when `rename(po, no, pn, nn)` completes while the destination
`(pn, nn)` already binds a distinct inode `j` — the only binding of `j`
in any directory's content map — the overwritten node `j` stays in the
inode table but is no longer referenced by any directory's content map;
and because every node's `parent` field (in particular `j`'s) still
names a present entry, a subsequent `clean_files_without_parent` pass
does not remove `j` either: it leaks, invisible but undeletable by the
repair pass. -/
theorem rename_overwrite_orphans_node (fs : FS) (po pn i j : Nat)
    (no nn : Bytes) (PO PN fI fJ : File) (esO esN : List (Bytes × Nat))
    (hnodup : (fs.files.map Prod.fst).Nodup)
    (hesOnodup : (esO.map Prod.fst).Nodup)
    (hwf : parentsPresentB fs = true)
    (hPO : dictGet fs.files po = some PO) (hesO : PO.content = .dir esO)
    (hio : dictGet esO no = some i)
    (hPN : dictGet fs.files pn = some PN) (hesN : PN.content = .dir esN)
    (_hjdest : dictGet esN nn = some j)
    (hI : dictGet fs.files i = some fI)
    (hJ : dictGet fs.files j = some fJ)
    (hji : j ≠ i) (hipo : i ≠ po) (hipn : i ≠ pn)
    (hjpo : j ≠ po) (hjpn : j ≠ pn)
    (huniq : refsOnlyAt fs j pn nn = true) :
    (pngFS.rename fs po no pn nn).1 = .ok () ∧
    dictGet (pngFS.rename fs po no pn nn).2.files j = some fJ ∧
    (∀ p pf l nm, dictGet (pngFS.rename fs po no pn nn).2.files p = some pf →
       pf.content = .dir l → dictGet l nm ≠ some j) ∧
    dictGet
      ((pngFS.rename fs po no pn nn).2.clean_files_without_parent).files j =
      some fJ := by
  have hpnsome : (dictGet fs.files pn).isSome = true := by rw [hPN]; rfl
  by_cases hpp : pn = po
  · -- same-directory rename overwriting a sibling
    have hP2 : dictGet (dictModify
        (dictModify fs.files po (fun q =>
          match q.content with
          | Content.dir l => { q with content := Content.dir (dictDel l no) }
          | Content.reg _ => q))
        i (fun q => { q with name := nn })) pn =
        some { PO with content := Content.dir (dictDel esO no) } := by
      rw [dictGet_dictModify_ne _ _ _ _ (Ne.symm hipn)]
      rw [hpp]
      rw [dictGet_dictModify_self, hPO]
      simp only [Option.map_some']
      rw [hesO]
    refine rename_overwrite_core fs po pn i j no nn PO fI fJ
      { PO with content := Content.dir (dictDel esO no) } esO (dictDel esO no)
      hnodup hesOnodup hwf hPO hesO hpnsome hio hI hJ hji hipo hipn hjpo hjpn
      huniq hP2 rfl ?_
    intro nm hnm hlj
    by_cases hno : nm = no
    · subst hno
      rw [dictGet_dictDel_self nm hesOnodup] at hlj
      simp at hlj
    · rw [dictGet_dictDel_ne _ _ _ hno] at hlj
      exact hnm (refsOnlyAt_spec huniq po PO esO nm hPO hesO hlj).2
  · -- cross-directory rename
    have hP2 : dictGet (dictModify
        (dictModify fs.files po (fun q =>
          match q.content with
          | Content.dir l => { q with content := Content.dir (dictDel l no) }
          | Content.reg _ => q))
        i (fun q => { q with name := nn })) pn = some PN := by
      rw [dictGet_dictModify_ne _ _ _ _ (Ne.symm hipn)]
      rw [dictGet_dictModify_ne _ _ _ _ hpp]
      exact hPN
    refine rename_overwrite_core fs po pn i j no nn PO fI fJ PN esO esN
      hnodup hesOnodup hwf hPO hesO hpnsome hio hI hJ hji hipo hipn hjpo hjpn
      huniq hP2 hesN ?_
    intro nm hnm hlj
    exact hnm (refsOnlyAt_spec huniq pn PN esN nm hPN hesN hlj).2

/-- The table before the overwriting rename of the C10 witness:
root 1 { docs ↦ 2, x ↦ 3 }, dir 2 { x ↦ 4 }, regular files 3 and 4. -/
def overwriteFS : FS :=
  (pngFS.create
    (pngFS.create (pngFS.mkdir (FS.construct 0 0 0) 1 [100]).2 1 [120]).2
    2 [120]).2

/-- Witness for C10 at a concrete input: `rename(1, "x", 2, "x")` moves
inode 3 over inode 4; afterwards 4 is still in the table and survives a
repair pass. -/
theorem rename_overwrite_orphans_node_witness :
    (pngFS.rename overwriteFS 1 [120] 2 [120]).1 = .ok () ∧
    dictGet (pngFS.rename overwriteFS 1 [120] 2 [120]).2.files 4 =
      some { name := [120], inode := 4, size := 0, content := .reg [],
             mode := regMode, is_dir := false, parent := 2 } ∧
    dictGet
      ((pngFS.rename overwriteFS 1 [120] 2 [120]).2.clean_files_without_parent).files
      4 =
      some { name := [120], inode := 4, size := 0, content := .reg [],
             mode := regMode, is_dir := false, parent := 2 } := by
  have h := rename_overwrite_orphans_node overwriteFS 1 2 3 4 [120] [120]
    { name := [46, 46], inode := 1, size := 0,
      content := .dir [([100], 2), ([120], 3)], mode := dirMode,
      is_dir := true, parent := 0 }
    { name := [100], inode := 2, size := 0, content := .dir [([120], 4)],
      mode := dirMode, is_dir := true, parent := 1 }
    { name := [120], inode := 3, size := 0, content := .reg [],
      mode := regMode, is_dir := false, parent := 1 }
    { name := [120], inode := 4, size := 0, content := .reg [],
      mode := regMode, is_dir := false, parent := 2 }
    [([100], 2), ([120], 3)] [([120], 4)]
    (by decide) (by decide) (by decide) rfl rfl rfl rfl rfl rfl rfl rfl
    (by decide) (by decide) (by decide) (by decide) (by decide) (by decide)
  exact ⟨h.1, h.2.1, h.2.2.2⟩
